import Mathlib

/-! Verification of the metadata-consolidation core of `exif_extract.py`
(py-exif-extract).  The body of the `ExifExtract` class — GPS coordinate
conversion, per-file record extraction, schema unification, CSV
serialization and pretty printing — is modelled as pure Lean functions.
The external decoder boundary (`open`, `file.read()`, the `exif.Image`
constructor and its `has_exif` / `dir` / `get` capabilities) is modelled
as an input datatype recording how far the boundary calls succeed and,
on full success, which key/value pairs the decoder exposes.  Python
dicts are modelled as insertion-ordered association lists, Python
numbers as rationals, and rendered output text as character lists. -/

namespace ExifExtract

/-- Decoder-provided metadata values: strings, numbers (modelled as
rationals) and the 3-element numeric sequences used by the raw GPS
coordinate fields.  Value types are decoder-defined and opaque to the
core except for these shapes. -/
inductive Value where
  | str (s : String)
  | num (q : ℚ)
  | triple (d m s : ℚ)
  deriving DecidableEq

/-- A per-file metadata record: a Python dict modelled as an
insertion-ordered association list from field name to value. -/
abbrev Record := List (String × Value)

/-- Python dict lookup (`d[k]` / `d.get(k)`): the first binding of the
key, if any. -/
def lookupValue : Record → String → Option Value
  | [], _ => none
  | (k₀, v) :: rest, k => if k₀ = k then some v else lookupValue rest k

/-- Python dict assignment `d[k] = v`: overwrite in place when the key
exists (keeping its position), otherwise append the new binding at the
end. -/
def dictInsert : Record → String → Value → Record
  | [], k, v => [(k, v)]
  | (k₀, v₀) :: rest, k, v =>
      if k₀ = k then (k₀, v) :: rest else (k₀, v₀) :: dictInsert rest k v

/-- Python `str(...)` on a metadata value, as a character list.  Strings
render as themselves (`str` on a `str` is the identity); the rendering
of non-string values is decoder-defined and opaque to the claims. -/
def pyStr : Value → List Char
  | .str s => s.data
  | .num q => (toString q).data
  | .triple a b c =>
      ("(" ++ toString a ++ ", " ++ toString b ++ ", " ++ toString c ++ ")").data

/-- `gps_decimal_coords` from the source:
`coords[0] + coords[1]/60 + coords[2]/3600`, negated exactly when the
reference value equals "S" or "W".  Python `==` against any other value,
recognized or not, is simply false and leaves the value unnegated. -/
def gps_decimal_coords (coords : ℚ × ℚ × ℚ) (ref : Value) : ℚ :=
  let decimal_degrees := coords.1 + coords.2.1 / 60 + coords.2.2 / 3600
  if ref = Value.str "S" ∨ ref = Value.str "W" then -decimal_degrees else decimal_degrees

/-- Errors that can escape `ExifExtract.__init__`: `IOError` from
`open`, the `ExtractError` raised by the guarded read/decode block, and
the uncaught Python exceptions that value access in the loop body can
raise (`KeyError` from `d[k]` on a missing key, `TypeError` from the
coordinate arithmetic on a value of the wrong shape). -/
inductive RunError where
  | ioError
  | extractError
  | keyError
  | typeError
  deriving DecidableEq

/-- One input file as seen through the core's external boundary: each
case records how far the calls `open`, `file.read()` and
`exif.Image(...)` succeed and, on full success, whether `has_exif`
holds and which `dir`/`get` key/value pairs the decoder exposes. -/
inductive FileInput where
  | openFail
  | readFail
  | decodeFail
  | noExif
  | image (path : String) (data : List (String × Value))
  deriving DecidableEq

/-- Build the per-file record: seed with `filename`, then copy every key
the decoder enumerates (`for key in dir(my_image): d[key] = my_image.get(key)`). -/
def buildRecord (path : String) (data : List (String × Value)) : Record :=
  data.foldl (fun r p => dictInsert r p.1 p.2) [("filename", Value.str path)]

/-- View a value as the 3-element numeric sequence `coords[0..2]`; any
other shape makes the arithmetic in `gps_decimal_coords` raise a
TypeError. -/
def asTriple : Value → Option (ℚ × ℚ × ℚ)
  | .triple a b c => some (a, b, c)
  | _ => none

/-- The GPS consolidation step of `__init__` for one axis.  When the raw
coordinate key is present, the code evaluates `d[refKey]` (an uncaught
KeyError when that key is absent) and then `gps_decimal_coords` (an
uncaught TypeError when the coordinate value is not a numeric triple),
storing the decimal result under `decKey`.  When the raw key is absent
the record is returned unchanged. -/
def deriveGps (r : Record) (rawKey refKey decKey : String) : Except RunError Record :=
  match lookupValue r rawKey with
  | none => .ok r
  | some coords =>
    match lookupValue r refKey with
    | none => .error .keyError
    | some ref =>
      match asTriple coords with
      | none => .error .typeError
      | some c => .ok (dictInsert r decKey (.num (gps_decimal_coords c ref)))

/-- `list(dict.fromkeys(l))`: keep the first occurrence of each element,
in first-seen order.  `seen` accumulates the keys already emitted. -/
def dedupAux : List String → List String → List String
  | [], _ => []
  | x :: xs, seen => if x ∈ seen then dedupAux xs seen else x :: dedupAux xs (x :: seen)

/-- The schema-unification step of `__init__`:
`field_headings = list(dict.fromkeys(field_headings + list(image_exif_data)))`. -/
def unifyHeadings (old new : List String) : List String :=
  dedupAux (old ++ new) []

/-- The state grown by `__init__`'s loop: `self.exif_table` and the
local `field_headings`. -/
structure ExtractState where
  exif_table : List Record
  field_headings : List String
  deriving DecidableEq

/-- The state before the loop:
`self.exif_table = []`,
`field_headings = ['filename','gps_lat_decimal','gps_lon_decimal']`. -/
def initState : ExtractState :=
  ⟨[], ["filename", "gps_lat_decimal", "gps_lon_decimal"]⟩

/-- One iteration of the `for path_name in infilenames` loop of
`__init__`. -/
def processFile (st : ExtractState) (f : FileInput) : Except RunError ExtractState :=
  match f with
  | .openFail => .error .ioError
  | .readFail => .error .extractError
  | .decodeFail => .error .extractError
  | .noExif => .ok st
  | .image path data =>
    let r₀ := buildRecord path data
    match deriveGps r₀ "gps_latitude" "gps_latitude_ref" "gps_lat_decimal" with
    | .error e => .error e
    | .ok r₁ =>
      match deriveGps r₁ "gps_longitude" "gps_longitude_ref" "gps_lon_decimal" with
      | .error e => .error e
      | .ok r₂ =>
        .ok ⟨st.exif_table ++ [r₂], unifyHeadings st.field_headings (r₂.map Prod.fst)⟩

/-- The whole loop, aborting at the first escaping exception. -/
def processFiles (st : ExtractState) : List FileInput → Except RunError ExtractState
  | [] => .ok st
  | f :: fs =>
    match processFile st f with
    | .error e => .error e
    | .ok st₁ => processFiles st₁ fs

/-- `ExifExtract.__init__` on a list of input files. -/
def exifExtract (files : List FileInput) : Except RunError ExtractState :=
  processFiles initState files

/-- Double every literal quote character:
`field.replace('"', '""')` at the character level (the pattern is a
single character, so the Python replacement is a per-character rewrite). -/
def doubleQuoteChars : List Char → List Char
  | [] => []
  | c :: cs => if c = '"' then '"' :: '"' :: doubleQuoteChars cs else c :: doubleQuoteChars cs

/-- `','.join(fields)`. -/
def joinComma : List (List Char) → List Char
  | [] => []
  | [f] => f
  | f :: rest => f ++ ',' :: joinComma rest

/-- One CSV body field of `write_csv`: `str(row.get(key, ''))`, quotes
doubled, and the field wrapped in double quotes when it contains a
comma. -/
def csvField (row : Record) (key : String) : List Char :=
  let field := pyStr ((lookupValue row key).getD (Value.str ""))
  let field₂ := doubleQuoteChars field
  if ',' ∈ field₂ then '"' :: field₂ ++ ['"'] else field₂

/-- One CSV body line of `write_csv`: comma-joined fields plus a
newline (`outfile.write(','.join(csv_fields) + '\n')`). -/
def csvRow (headings : List String) (row : Record) : List Char :=
  joinComma (headings.map (csvField row)) ++ ['\n']

/-- Concatenation of a sequence of written text fragments. -/
def strConcat : List (List Char) → List Char
  | [] => []
  | s :: rest => s ++ strConcat rest

/-- The body of `write_csv`: one line per record, in table order. -/
def csvBody (headings : List String) (table : List Record) : List Char :=
  strConcat (table.map (csvRow headings))

/-- Modelled from the spec: "for each schema field, fetch the record's
value or empty string if absent, stringify it, double every literal
quote character, and wrap the whole field in quotes if it contains a
comma".  Written independently of `csvField`, for comparison with it. -/
def csvFieldSpec (row : Record) (key : String) : List Char :=
  let value :=
    match lookupValue row key with
    | some v => pyStr v
    | none => []
  let doubled := value.foldr (fun c acc => if c = '"' then '"' :: '"' :: acc else c :: acc) []
  if ',' ∈ doubled then ('"' :: doubled) ++ ['"'] else doubled

/-- Number of literal double-quote characters in a field. -/
def countQuotes : List Char → Nat
  | [] => 0
  | c :: cs => (if c = '"' then 1 else 0) + countQuotes cs

/-- Python truthiness (`if value:`) for the values a record can hold,
with `None` (a missing key under `d.get(k)`) being falsy. -/
def truthy : Option Value → Bool
  | none => false
  | some (.str s) => decide (¬ s = "")
  | some (.num q) => decide (¬ q = 0)
  | some (.triple _ _ _) => true

/-- `str(value)` as the pretty printer would apply it to a `d.get(k)`
result (`str(None)` is "None"; that branch is never written because
`None` is falsy). -/
def pyStrO : Option Value → List Char
  | none => "None".data
  | some v => pyStr v

/-- `pretty_print_exif`: the loop over `self.field_headings`, writing
`alias + ": " + str(value) + "\n"` for each truthy, non-`filename`
field of the given record.  The alias table is display-only and is
abstracted as a function parameter. -/
def pretty_print_exif (aliasFn : String → List Char) (headings : List String)
    (row : Record) : List Char :=
  headings.foldl (fun acc key =>
    let value := lookupValue row key
    if truthy value && decide (¬ key = "filename") then
      acc ++ (aliasFn key ++ ": ".data ++ pyStrO value ++ ['\n'])
    else acc) []

/-- The per-record invariant relating the result table to the schema:
every field name of every record occurs in the field headings. -/
def TableInv (st : ExtractState) : Prop :=
  ∀ r ∈ st.exif_table, ∀ p ∈ r, p.1 ∈ st.field_headings

/-! ### Lemmas about first-seen deduplication (`list(dict.fromkeys(...))`) -/

theorem mem_dedupAux (y : String) (l : List String) :
    ∀ seen, y ∈ dedupAux l seen ↔ (y ∈ l ∧ ¬ y ∈ seen) := by
  induction l with
  | nil => intro seen; simp [dedupAux]
  | cons x xs ih =>
    intro seen
    by_cases hx : x ∈ seen
    · rw [dedupAux, if_pos hx, ih seen]
      constructor
      · exact fun h => ⟨List.mem_cons_of_mem _ h.1, h.2⟩
      · rintro ⟨h₁, h₂⟩
        rcases List.mem_cons.mp h₁ with h | h
        · exact absurd (h ▸ hx) h₂
        · exact ⟨h, h₂⟩
    · rw [dedupAux, if_neg hx]
      rw [List.mem_cons, ih (x :: seen), List.mem_cons, List.mem_cons]
      by_cases hyx : y = x
      · subst hyx; simp [hx]
      · simp [hyx]

theorem dedupAux_congr (l : List String) :
    ∀ s₁ s₂, (∀ y, y ∈ s₁ ↔ y ∈ s₂) → dedupAux l s₁ = dedupAux l s₂ := by
  induction l with
  | nil => intros; rfl
  | cons x xs ih =>
    intro s₁ s₂ h
    rw [dedupAux, dedupAux]
    by_cases hx : x ∈ s₁
    · rw [if_pos hx, if_pos ((h x).mp hx)]
      exact ih s₁ s₂ h
    · rw [if_neg hx, if_neg (fun hc => hx ((h x).mpr hc))]
      congr 1
      refine ih _ _ (fun y => ?_)
      rw [List.mem_cons, List.mem_cons, h y]

theorem dedupAux_append (l₂ : List String) : ∀ (l₁ seen : List String),
    dedupAux (l₁ ++ l₂) seen = dedupAux l₁ seen ++ dedupAux l₂ (l₁ ++ seen) := by
  intro l₁
  induction l₁ with
  | nil => intro seen; rfl
  | cons x xs ih =>
    intro seen
    by_cases hx : x ∈ seen
    · rw [List.cons_append, dedupAux, if_pos hx, dedupAux, if_pos hx, ih]
      congr 1
      refine dedupAux_congr _ _ _ (fun y => ?_)
      simp only [List.mem_append, List.cons_append, List.mem_cons]
      constructor
      · tauto
      · rintro (rfl | h | h) <;> tauto
    · rw [List.cons_append, dedupAux, if_neg hx, dedupAux, if_neg hx, ih, List.cons_append]
      congr 2
      refine dedupAux_congr _ _ _ (fun y => ?_)
      simp only [List.mem_append, List.cons_append, List.mem_cons]
      tauto

theorem dedupAux_eq_filter (l : List String) : ∀ seen, l.Nodup →
    dedupAux l seen = l.filter (fun y => decide (¬ y ∈ seen)) := by
  induction l with
  | nil => intros; rfl
  | cons x xs ih =>
    intro seen hnd
    rw [List.nodup_cons] at hnd
    by_cases hx : x ∈ seen
    · rw [dedupAux, if_pos hx, List.filter_cons_of_neg (by simpa using hx), ih seen hnd.2]
    · rw [dedupAux, if_neg hx, List.filter_cons_of_pos (by simpa using hx), ih (x :: seen) hnd.2]
      congr 1
      refine List.filter_congr (fun y hy => ?_)
      have hyx : ¬ y = x := fun h => hnd.1 (h ▸ hy)
      simp [List.mem_cons, hyx]

theorem dedupAux_nodup (l : List String) : ∀ seen, (dedupAux l seen).Nodup := by
  induction l with
  | nil => intro seen; simp [dedupAux]
  | cons x xs ih =>
    intro seen
    by_cases hx : x ∈ seen
    · rw [dedupAux, if_pos hx]; exact ih seen
    · rw [dedupAux, if_neg hx, List.nodup_cons]
      refine ⟨fun hmem => ?_, ih (x :: seen)⟩
      exact ((mem_dedupAux x xs (x :: seen)).mp hmem).2 (List.mem_cons_self x seen)

theorem dedupAux_eq_nil (l : List String) :
    ∀ seen, (∀ y ∈ l, y ∈ seen) → dedupAux l seen = [] := by
  induction l with
  | nil => intros; rfl
  | cons x xs ih =>
    intro seen h
    rw [dedupAux, if_pos (h x (List.mem_cons_self x xs))]
    exact ih seen (fun y hy => h y (List.mem_cons_of_mem x hy))

theorem dedupAux_nil_seen (l : List String) (h : l.Nodup) : dedupAux l [] = l := by
  rw [dedupAux_eq_filter l [] h]
  refine List.filter_eq_self.mpr (fun a _ => ?_)
  simp

/-! ### Lemmas about the schema unification step -/

theorem mem_unifyHeadings (y : String) (old new : List String) :
    y ∈ unifyHeadings old new ↔ (y ∈ old ∨ y ∈ new) := by
  rw [unifyHeadings, mem_dedupAux]
  simp

theorem unifyHeadings_nodup (old new : List String) : (unifyHeadings old new).Nodup :=
  dedupAux_nodup _ _

theorem unifyHeadings_decomp (old new : List String) (hold : old.Nodup) :
    unifyHeadings old new = old ++ dedupAux new old := by
  rw [unifyHeadings, dedupAux_append, dedupAux_nil_seen old hold]
  congr 1
  refine dedupAux_congr _ _ _ (fun y => ?_)
  simp

theorem unifyHeadings_eq (old new : List String) (hold : old.Nodup) (hnew : new.Nodup) :
    unifyHeadings old new = old ++ new.filter (fun k => decide (¬ k ∈ old)) := by
  rw [unifyHeadings_decomp old new hold, dedupAux_eq_filter new old hnew]

theorem unifyHeadings_idem (old new : List String) :
    unifyHeadings (unifyHeadings old new) new = unifyHeadings old new := by
  have hnd : (unifyHeadings old new).Nodup := unifyHeadings_nodup old new
  show dedupAux (unifyHeadings old new ++ new) [] = unifyHeadings old new
  rw [dedupAux_append, dedupAux_nil_seen _ hnd, dedupAux_eq_nil, List.append_nil]
  intro y hy
  rw [List.mem_append]
  exact Or.inl ((mem_unifyHeadings y old new).mpr (Or.inr hy))

/-! ### Lemmas about record construction -/

theorem lookup_dictInsert (r : Record) (k : String) (v : Value) (k₁ : String) :
    lookupValue (dictInsert r k v) k₁ = if k = k₁ then some v else lookupValue r k₁ := by
  induction r with
  | nil => by_cases h : k = k₁ <;> simp [dictInsert, lookupValue, h]
  | cons p rest ih =>
    obtain ⟨a, b⟩ := p
    by_cases hak : a = k
    · subst hak
      rw [dictInsert, if_pos rfl]
      by_cases h : a = k₁
      · subst h; simp [lookupValue]
      · simp [lookupValue, h]
    · rw [dictInsert, if_neg hak]
      by_cases h : a = k₁
      · subst h
        have hk : ¬ k = a := fun hc => hak hc.symm
        simp [lookupValue, hk]
      · simp [lookupValue, h, ih]

theorem lookup_foldl_dictInsert (data : List (String × Value)) :
    ∀ (r : Record) (k : String),
      lookupValue (data.foldl (fun r p => dictInsert r p.1 p.2) r) k = none ↔
        (lookupValue r k = none ∧ ¬ k ∈ data.map Prod.fst) := by
  induction data with
  | nil => intro r k; simp
  | cons p rest ih =>
    intro r k
    rw [List.foldl_cons, ih, lookup_dictInsert]
    by_cases h : p.1 = k
    · simp [h]
    · have h' : ¬ k = p.1 := fun hc => h hc.symm
      simp [h, h']

theorem lookup_buildRecord_none (path : String) (data : List (String × Value)) (k : String) :
    lookupValue (buildRecord path data) k = none ↔
      (¬ k = "filename" ∧ ¬ k ∈ data.map Prod.fst) := by
  rw [buildRecord, lookup_foldl_dictInsert]
  constructor
  · rintro ⟨h₁, h₂⟩
    refine ⟨fun hk => ?_, h₂⟩
    subst hk
    simp [lookupValue] at h₁
  · rintro ⟨h₁, h₂⟩
    refine ⟨?_, h₂⟩
    have : ¬ "filename" = k := fun hc => h₁ hc.symm
    simp [lookupValue, this]

theorem deriveGps_missing_ref (r : Record) (rawKey refKey decKey : String)
    (h₁ : ¬ lookupValue r rawKey = none) (h₂ : lookupValue r refKey = none) :
    deriveGps r rawKey refKey decKey = .error .keyError := by
  obtain ⟨v, hv⟩ := Option.ne_none_iff_exists'.mp h₁
  simp [deriveGps, hv, h₂]

theorem deriveGps_missing_raw (r : Record) (rawKey refKey decKey : String)
    (h : lookupValue r rawKey = none) :
    deriveGps r rawKey refKey decKey = .ok r := by
  simp [deriveGps, h]

theorem map_fst_dictInsert (r : Record) (k : String) (v : Value) (y : String) :
    y ∈ (dictInsert r k v).map Prod.fst ↔ (y ∈ r.map Prod.fst ∨ y = k) := by
  induction r with
  | nil => simp [dictInsert]
  | cons p rest ih =>
    obtain ⟨a, b⟩ := p
    by_cases hak : a = k
    · subst hak
      rw [dictInsert, if_pos rfl]
      simp only [List.map_cons, List.mem_cons]
      tauto
    · rw [dictInsert, if_neg hak]
      simp only [List.map_cons, List.mem_cons, ih]
      tauto

/-! ### Structural lemmas about the extraction loop -/

theorem processFile_image_ok (st : ExtractState) (path : String)
    (data : List (String × Value)) (st₁ : ExtractState)
    (h : processFile st (.image path data) = .ok st₁) :
    ∃ r₂, st₁ = ⟨st.exif_table ++ [r₂], unifyHeadings st.field_headings (r₂.map Prod.fst)⟩ := by
  rcases hd₁ : deriveGps (buildRecord path data) "gps_latitude" "gps_latitude_ref"
      "gps_lat_decimal" with e | r₁
  · simp only [processFile, hd₁] at h
    cases h
  · rcases hd₂ : deriveGps r₁ "gps_longitude" "gps_longitude_ref" "gps_lon_decimal" with e | r₂
    · simp only [processFile, hd₁, hd₂] at h
      cases h
    · simp only [processFile, hd₁, hd₂] at h
      exact ⟨r₂, (Except.ok.inj h).symm⟩

theorem processFile_mem_headings (st : ExtractState) (f : FileInput) (st₁ : ExtractState)
    (h : processFile st f = .ok st₁) (y : String) (hy : y ∈ st.field_headings) :
    y ∈ st₁.field_headings := by
  cases f with
  | openFail => cases h
  | readFail => cases h
  | decodeFail => cases h
  | noExif => cases h; exact hy
  | image path data =>
    obtain ⟨r₂, rfl⟩ := processFile_image_ok st path data st₁ h
    exact (mem_unifyHeadings y _ _).mpr (Or.inl hy)

theorem processFiles_mem_headings (files : List FileInput) :
    ∀ (st st₁ : ExtractState), processFiles st files = .ok st₁ →
      ∀ y ∈ st.field_headings, y ∈ st₁.field_headings := by
  induction files with
  | nil => intro st st₁ h y hy; cases h; exact hy
  | cons f fs ih =>
    intro st st₁ h y hy
    rw [processFiles] at h
    rcases hf : processFile st f with e | st₂
    · rw [hf] at h; cases h
    · rw [hf] at h
      exact ih st₂ st₁ h y (processFile_mem_headings st f st₂ hf y hy)

theorem processFile_nodup (st : ExtractState) (f : FileInput) (st₁ : ExtractState)
    (h : processFile st f = .ok st₁) (hn : st.field_headings.Nodup) :
    st₁.field_headings.Nodup := by
  cases f with
  | openFail => cases h
  | readFail => cases h
  | decodeFail => cases h
  | noExif => cases h; exact hn
  | image path data =>
    obtain ⟨r₂, rfl⟩ := processFile_image_ok st path data st₁ h
    exact unifyHeadings_nodup _ _

theorem processFiles_nodup (files : List FileInput) :
    ∀ (st st₁ : ExtractState), processFiles st files = .ok st₁ →
      st.field_headings.Nodup → st₁.field_headings.Nodup := by
  induction files with
  | nil => intro st st₁ h hn; cases h; exact hn
  | cons f fs ih =>
    intro st st₁ h hn
    rw [processFiles] at h
    rcases hf : processFile st f with e | st₂
    · rw [hf] at h; cases h
    · rw [hf] at h
      exact ih st₂ st₁ h (processFile_nodup st f st₂ hf hn)

theorem processFile_tableInv (st : ExtractState) (f : FileInput) (st₁ : ExtractState)
    (h : processFile st f = .ok st₁) (hi : TableInv st) : TableInv st₁ := by
  cases f with
  | openFail => cases h
  | readFail => cases h
  | decodeFail => cases h
  | noExif => cases h; exact hi
  | image path data =>
    obtain ⟨r₂, rfl⟩ := processFile_image_ok st path data st₁ h
    intro r hr p hp
    rcases List.mem_append.mp hr with hr | hr
    · exact (mem_unifyHeadings p.1 _ _).mpr (Or.inl (hi r hr p hp))
    · have : r = r₂ := List.mem_singleton.mp hr
      subst this
      exact (mem_unifyHeadings p.1 _ _).mpr (Or.inr (List.mem_map_of_mem Prod.fst hp))

theorem processFiles_tableInv (files : List FileInput) :
    ∀ (st st₁ : ExtractState), processFiles st files = .ok st₁ →
      TableInv st → TableInv st₁ := by
  induction files with
  | nil => intro st st₁ h hi; cases h; exact hi
  | cons f fs ih =>
    intro st st₁ h hi
    rw [processFiles] at h
    rcases hf : processFile st f with e | st₂
    · rw [hf] at h; cases h
    · rw [hf] at h
      exact ih st₂ st₁ h (processFile_tableInv st f st₂ hf hi)

theorem processFiles_append (l₂ : List FileInput) : ∀ (l₁ : List FileInput) (st : ExtractState),
    processFiles st (l₁ ++ l₂) =
      match processFiles st l₁ with
      | .error e => .error e
      | .ok st₁ => processFiles st₁ l₂ := by
  intro l₁
  induction l₁ with
  | nil => intro st; rfl
  | cons f fs ih =>
    intro st
    rw [List.cons_append, processFiles, processFiles]
    rcases hf : processFile st f with e | st₂
    · rfl
    · exact ih st₂

/-! ### Lemmas about CSV field rendering -/

theorem doubleQuoteChars_eq_foldr (l : List Char) :
    doubleQuoteChars l =
      l.foldr (fun c acc => if c = '"' then '"' :: '"' :: acc else c :: acc) [] := by
  induction l with
  | nil => rfl
  | cons c cs ih => rw [doubleQuoteChars, List.foldr_cons, ih]

theorem countQuotes_doubleQuoteChars (l : List Char) :
    countQuotes (doubleQuoteChars l) = 2 * countQuotes l := by
  induction l with
  | nil => rfl
  | cons c cs ih =>
    by_cases h : c = '"'
    · subst h
      rw [doubleQuoteChars, if_pos rfl, countQuotes, countQuotes, countQuotes]
      omega
    · rw [doubleQuoteChars, if_neg h]
      simp only [countQuotes, if_neg h, ih]
      omega

theorem mem_comma_doubleQuoteChars (l : List Char) :
    ',' ∈ doubleQuoteChars l ↔ ',' ∈ l := by
  have hq : ¬ (',' : Char) = '"' := by decide
  induction l with
  | nil => simp [doubleQuoteChars]
  | cons c cs ih =>
    by_cases h : c = '"'
    · subst h
      rw [doubleQuoteChars, if_pos rfl]
      simp only [List.mem_cons, ih]
      tauto
    · rw [doubleQuoteChars, if_neg h]
      simp only [List.mem_cons, ih]

theorem csvField_eq_spec (row : Record) (key : String) :
    csvField row key = csvFieldSpec row key := by
  rcases h : lookupValue row key with _ | v
  · simp [csvField, csvFieldSpec, h, doubleQuoteChars_eq_foldr, pyStr]
  · simp [csvField, csvFieldSpec, h, doubleQuoteChars_eq_foldr]

/-! ### Lemmas about the pretty printer -/

theorem foldl_filter_concat (cond : String → Bool) (g : String → List Char)
    (l : List String) :
    ∀ acc : List Char,
      l.foldl (fun a k => if cond k then a ++ g k else a) acc =
        acc ++ strConcat ((l.filter cond).map g) := by
  induction l with
  | nil => intro acc; rw [List.foldl_nil, List.filter_nil, List.map_nil, strConcat,
      List.append_nil]
  | cons k ks ih =>
    intro acc
    rw [List.foldl_cons, List.filter_cons]
    by_cases h : cond k
    · rw [if_pos h, if_pos h, ih, List.map_cons, strConcat, List.append_assoc]
    · rw [if_neg h, if_neg h, ih]

/-! ### Claim theorems -/

/-- C1, counterexample: a run whose single processed file has no GPS
data still produces a Field Schema containing `gps_lat_decimal` and
`gps_lon_decimal` — the two names are pre-seeded unconditionally, so
the claim that they are absent from GPS-free runs is false. -/
theorem gps_schema_preseed_cex :
    exifExtract [FileInput.image "a.jpg" [("make", Value.str "X")]] =
      Except.ok ⟨[[("filename", Value.str "a.jpg"), ("make", Value.str "X")]],
        ["filename", "gps_lat_decimal", "gps_lon_decimal", "make"]⟩
    ∧ "gps_lat_decimal" ∈ ["filename", "gps_lat_decimal", "gps_lon_decimal", "make"]
    ∧ "gps_lon_decimal" ∈ ["filename", "gps_lat_decimal", "gps_lon_decimal", "make"] :=
  ⟨by rfl, by decide, by decide⟩

/-- C1, amended: the final Field Schema always contains `filename`,
`gps_lat_decimal` and `gps_lon_decimal` — they are pre-seeded before
any file is processed and never removed, even when no processed file
had GPS data. -/
theorem gps_schema_always_present (files : List FileInput) (st₁ : ExtractState)
    (h : exifExtract files = .ok st₁) :
    "filename" ∈ st₁.field_headings ∧ "gps_lat_decimal" ∈ st₁.field_headings ∧
      "gps_lon_decimal" ∈ st₁.field_headings := by
  have hmem := processFiles_mem_headings files initState st₁ h
  exact ⟨hmem _ (by simp [initState]), hmem _ (by simp [initState]),
    hmem _ (by simp [initState])⟩

/-- Witness for `gps_schema_always_present` at the concrete run with no
input files. -/
theorem gps_schema_always_present_w :
    "filename" ∈ initState.field_headings ∧ "gps_lat_decimal" ∈ initState.field_headings ∧
      "gps_lon_decimal" ∈ initState.field_headings :=
  gps_schema_always_present [] initState rfl

/-- C2, counterexample: a file whose record contains `gps_latitude` but
not `gps_latitude_ref` does not have the decimal field silently
omitted — the whole run aborts with an uncaught KeyError, so the claim
that no error is raised and the batch continues is false. -/
theorem missing_gps_ref_cex :
    exifExtract [FileInput.image "b.jpg" [("gps_latitude", Value.triple 10 30 0)]] =
      Except.error RunError.keyError := by
  rfl

/-- C2, amended: for every record containing the raw coordinate field
but not its reference field (for either axis), the extractor evaluates
`image_exif_data[...ref]` unconditionally and the resulting KeyError
escapes `__init__` uncaught, aborting the run instead of skipping the
derived field. -/
theorem missing_gps_ref_raises :
    (∀ (st : ExtractState) (path : String) (data : List (String × Value)),
        "gps_latitude" ∈ data.map Prod.fst →
        ¬ "gps_latitude_ref" ∈ data.map Prod.fst →
        processFile st (.image path data) = .error .keyError)
    ∧ (∀ (st : ExtractState) (path : String) (data : List (String × Value)),
        ¬ "gps_latitude" ∈ data.map Prod.fst →
        "gps_longitude" ∈ data.map Prod.fst →
        ¬ "gps_longitude_ref" ∈ data.map Prod.fst →
        processFile st (.image path data) = .error .keyError) := by
  constructor
  · intro st path data hlat href
    have h₁ : ¬ lookupValue (buildRecord path data) "gps_latitude" = none :=
      fun hc => ((lookup_buildRecord_none path data _).mp hc).2 hlat
    have h₂ : lookupValue (buildRecord path data) "gps_latitude_ref" = none :=
      (lookup_buildRecord_none path data _).mpr ⟨by decide, href⟩
    have hd := deriveGps_missing_ref (buildRecord path data) _ _ "gps_lat_decimal" h₁ h₂
    simp [processFile, hd]
  · intro st path data hlat hlon href
    have h₀ : lookupValue (buildRecord path data) "gps_latitude" = none :=
      (lookup_buildRecord_none path data _).mpr ⟨by decide, hlat⟩
    have hd₁ := deriveGps_missing_raw (buildRecord path data) _ "gps_latitude_ref"
      "gps_lat_decimal" h₀
    have h₁ : ¬ lookupValue (buildRecord path data) "gps_longitude" = none :=
      fun hc => ((lookup_buildRecord_none path data _).mp hc).2 hlon
    have h₂ : lookupValue (buildRecord path data) "gps_longitude_ref" = none :=
      (lookup_buildRecord_none path data _).mpr ⟨by decide, href⟩
    have hd₂ := deriveGps_missing_ref (buildRecord path data) _ _ "gps_lon_decimal" h₁ h₂
    simp [processFile, hd₁, hd₂]

/-- Witness for `missing_gps_ref_raises` at a concrete record holding a
raw latitude but no latitude reference. -/
theorem missing_gps_ref_raises_w :
    processFile initState (FileInput.image "b.jpg" [("gps_latitude", Value.triple 10 30 0)]) =
      Except.error RunError.keyError :=
  missing_gps_ref_raises.1 initState "b.jpg" [("gps_latitude", Value.triple 10 30 0)]
    (by decide) (by decide)

/-- C3: `gps_decimal_coords` returns `deg + min/60 + sec/3600`, negated
exactly when the reference equals "S" or "W"; every other reference
value, recognized or not, yields the unnegated sum. -/
theorem gps_decimal_coords_spec (d m s : ℚ) (ref : Value) :
    (gps_decimal_coords (d, m, s) ref =
      if ref = Value.str "S" ∨ ref = Value.str "W" then -(d + m / 60 + s / 3600)
      else d + m / 60 + s / 3600)
    ∧ (∀ ref₁ : Value, ¬ ref₁ = Value.str "S" → ¬ ref₁ = Value.str "W" →
        gps_decimal_coords (d, m, s) ref₁ = d + m / 60 + s / 3600) := by
  constructor
  · rfl
  · intro ref₁ h₁ h₂
    show (if ref₁ = Value.str "S" ∨ ref₁ = Value.str "W" then -(d + m / 60 + s / 3600)
      else d + m / 60 + s / 3600) = d + m / 60 + s / 3600
    rw [if_neg]
    rintro (h | h)
    exacts [h₁ h, h₂ h]

/-- Witness for `gps_decimal_coords_spec` at a concrete coordinate and
the unrecognized reference "Q". -/
theorem gps_decimal_coords_spec_w :
    gps_decimal_coords (10, 30, 0) (Value.str "Q") = 10 + 30 / 60 + 0 / 3600 :=
  (gps_decimal_coords_spec 10 30 0 (Value.str "Q")).2 (Value.str "Q") (by decide) (by decide)

/-- C4: a CSV row is the comma-join of its fields plus a newline; each
field equals the spec-described rendering (value or empty string,
quotes doubled, wrapped in quotes exactly when a comma is present);
doubling exactly doubles the quote count and neither adds nor removes
commas; and a comma-free field — even one containing quotes — is
emitted unquoted with its quotes doubled. -/
theorem csv_serializer_spec :
    (∀ (headings : List String) (row : Record),
        csvRow headings row = joinComma (headings.map (csvField row)) ++ ['\n'])
    ∧ (∀ (row : Record) (key : String), csvField row key = csvFieldSpec row key)
    ∧ (∀ l : List Char, countQuotes (doubleQuoteChars l) = 2 * countQuotes l)
    ∧ (∀ l : List Char, ',' ∈ doubleQuoteChars l ↔ ',' ∈ l)
    ∧ (∀ (row : Record) (key : String),
        ¬ ',' ∈ pyStr ((lookupValue row key).getD (Value.str "")) →
        csvField row key =
          doubleQuoteChars (pyStr ((lookupValue row key).getD (Value.str "")))) := by
  refine ⟨fun _ _ => rfl, csvField_eq_spec, countQuotes_doubleQuoteChars,
    mem_comma_doubleQuoteChars, ?_⟩
  intro row key h
  have h₁ : ¬ ',' ∈ doubleQuoteChars (pyStr ((lookupValue row key).getD (Value.str ""))) :=
    fun hc => h ((mem_comma_doubleQuoteChars _).mp hc)
  simp only [csvField]
  rw [if_neg h₁]

/-- Witness for `csv_serializer_spec` at a concrete comma-free field
value containing a quote. -/
theorem csv_serializer_spec_w :
    csvField [("a", Value.str "x\"y")] "a" =
      doubleQuoteChars (pyStr ((lookupValue [("a", Value.str "x\"y")] "a").getD (Value.str ""))) :=
  csv_serializer_spec.2.2.2.2 [("a", Value.str "x\"y")] "a" (by decide)

/-- C5: the schema-unification step returns the old list followed by
exactly the new record's keys not already present, in the record's own
iteration order, and it is idempotent. -/
theorem schema_unifier_spec (old new : List String) (hold : old.Nodup) (hnew : new.Nodup) :
    unifyHeadings old new = old ++ new.filter (fun k => decide (¬ k ∈ old))
    ∧ unifyHeadings (unifyHeadings old new) new = unifyHeadings old new :=
  ⟨unifyHeadings_eq old new hold hnew, unifyHeadings_idem old new⟩

/-- Witness for `schema_unifier_spec` at a concrete schema and record
key list. -/
theorem schema_unifier_spec_w :
    unifyHeadings ["filename"] ["filename", "make"] =
      ["filename"] ++ ["filename", "make"].filter (fun k => decide (¬ k ∈ ["filename"]))
    ∧ unifyHeadings (unifyHeadings ["filename"] ["filename", "make"]) ["filename", "make"] =
      unifyHeadings ["filename"] ["filename", "make"] :=
  schema_unifier_spec ["filename"] ["filename", "make"] (by decide) (by decide)

/-- C6: processing one file only ever extends the Field Schema at the
end (existing entries are neither removed nor reordered), and after a
whole run the schema has no duplicate names and every field name of
every record of the result table occurs in it. -/
theorem schema_invariants_spec :
    (∀ (st : ExtractState) (f : FileInput) (st₁ : ExtractState),
        st.field_headings.Nodup → processFile st f = .ok st₁ →
        ∃ t, st₁.field_headings = st.field_headings ++ t)
    ∧ (∀ (files : List FileInput) (st₁ : ExtractState),
        exifExtract files = .ok st₁ →
        st₁.field_headings.Nodup ∧ TableInv st₁) := by
  constructor
  · intro st f st₁ hnd h
    cases f with
    | openFail => cases h
    | readFail => cases h
    | decodeFail => cases h
    | noExif => cases h; exact ⟨[], (List.append_nil _).symm⟩
    | image path data =>
      obtain ⟨r₂, rfl⟩ := processFile_image_ok st path data st₁ h
      exact ⟨dedupAux (r₂.map Prod.fst) st.field_headings, unifyHeadings_decomp _ _ hnd⟩
  · intro files st₁ h
    refine ⟨processFiles_nodup files initState st₁ h (by decide), ?_⟩
    exact processFiles_tableInv files initState st₁ h
      (fun r hr => absurd hr (List.not_mem_nil r))

/-- Witness for `schema_invariants_spec` at a concrete skipped file and
the concrete empty run. -/
theorem schema_invariants_spec_w :
    (∃ t, initState.field_headings = initState.field_headings ++ t)
    ∧ (initState.field_headings.Nodup ∧ TableInv initState) :=
  ⟨schema_invariants_spec.1 initState FileInput.noExif initState (by decide) rfl,
    schema_invariants_spec.2 [] initState rfl⟩

/-- C7: a decode failure on the N-th file makes the whole run fail with
the extraction error: nothing is returned for that file and the files
after it are never reached, whatever they are. -/
theorem decode_failure_aborts (pre post : List FileInput) (st₁ : ExtractState)
    (h : exifExtract pre = .ok st₁) :
    exifExtract (pre ++ FileInput.decodeFail :: post) = .error RunError.extractError := by
  have h₁ : processFiles initState pre = .ok st₁ := h
  show processFiles initState (pre ++ FileInput.decodeFail :: post) =
    .error RunError.extractError
  rw [processFiles_append, h₁]
  rfl

/-- Witness for `decode_failure_aborts` at the concrete run whose first
file fails to decode. -/
theorem decode_failure_aborts_w :
    exifExtract ([] ++ FileInput.decodeFail :: []) = .error RunError.extractError :=
  decode_failure_aborts [] [] initState rfl

/-- C8: a file that decodes but reports no metadata leaves the state
unchanged — no record is appended, no error is raised — and processing
continues with the remaining files. -/
theorem no_metadata_skips_file (st : ExtractState) (fs : List FileInput) :
    processFile st FileInput.noExif = Except.ok st
    ∧ processFiles st (FileInput.noExif :: fs) = processFiles st fs :=
  ⟨rfl, rfl⟩

/-- C9: the pretty printer writes exactly one line
`alias ++ ": " ++ str(value) ++ "\n"` for each field of the schema, in
schema order, whose value in the record is truthy (present and
non-empty) and whose name is not `filename`, and nothing for the other
fields; being a total function it raises no errors. -/
theorem pretty_printer_spec (aliasFn : String → List Char) (headings : List String)
    (row : Record) :
    pretty_print_exif aliasFn headings row =
      strConcat
        (((headings.filter
              (fun k => truthy (lookupValue row k) && decide (¬ k = "filename"))).map
          (fun k => aliasFn k ++ ": ".data ++ pyStrO (lookupValue row k) ++ ['\n']))) := by
  have h := foldl_filter_concat
    (fun k => truthy (lookupValue row k) && decide (¬ k = "filename"))
    (fun k => aliasFn k ++ ": ".data ++ pyStrO (lookupValue row k) ++ ['\n'])
    headings []
  rw [List.nil_append] at h
  exact h

/-- C10: a read failure after a successful open is caught by the same
handler as a decode failure and re-raised as the extraction error — at
the core boundary the two are indistinguishable, and the result is not
the I/O error. -/
theorem read_failure_extract_error (st : ExtractState) :
    processFile st FileInput.readFail = Except.error RunError.extractError
    ∧ processFile st FileInput.readFail = processFile st FileInput.decodeFail
    ∧ ¬ processFile st FileInput.readFail = Except.error RunError.ioError :=
  ⟨rfl, rfl, fun h => RunError.noConfusion (Except.error.inj h)⟩

end ExifExtract
